import Mathlib

/-!
Shallow embedding of the core logic of the shooting-range map application
(`src/App.jsx`): the local-date codec (`formatDateLocal` / `parseLocalDate`),
the deterministic synthetic-event generator (`generateStevnerForRange`) and
the date-range filter (`isEventWithinRange` / `visibleRanges`).

JavaScript machine details are modelled explicitly:
 - strings are `String` / `List Char` (`charCodeAt` is the code point, which
   agrees with the UTF-16 code unit on the basic multilingual plane);
 - `parseInt(s, 10)` is `parseIntJS`: skip leading whitespace, optional
   sign, then the longest decimal-digit prefix, `none` for NaN;
 - a JS `Date` is `JSDate`: a local civil day (year, month 1-12, day) plus
   the milliseconds elapsed since that day's local midnight; the `Date`
   constructor's field rollover and its mapping of years 0-99 to 1900-1999
   are modelled in `jsMakeDate`;
 - code that can raise a `TypeError` (calling a method on `null`) returns
   `Except Unit`.
-/

set_option maxRecDepth 4096

/-- The character of a decimal digit value: `digitChar 7 = '7'`. -/
def digitChar (n : Nat) : Char := Char.ofNat (48 + n)

/-- The numeric value of a decimal digit character: `digitVal '7' = 7`. -/
def digitVal (c : Char) : Nat := c.toNat - 48

/-- Decimal digits of `n`, most significant first, with explicit fuel so the
definition is structural (any fuel above `n` gives the digits of `n`). -/
def natDigitsCore : Nat → Nat → List Char
  | 0, _ => []
  | f + 1, n =>
    if n < 10 then [digitChar n]
    else natDigitsCore f (n / 10) ++ [digitChar (n % 10)]

/-- Decimal digits of a natural number, most significant first. -/
def natDigits (n : Nat) : List Char := natDigitsCore (n + 1) n

/-- Decimal representation of an integer, as JS `String(i)` renders an
integral number. -/
def intToChars (i : Int) : List Char :=
  if i < 0 then '-' :: natDigits (-i).toNat else natDigits i.toNat

/-- JS `String(i)` for an integral number. -/
def natToStr (n : Nat) : String := ⟨natDigits n⟩

/-- JS `s.padStart(2, "0")`. -/
def padStart2 (l : List Char) : List Char :=
  if l.length < 2 then List.replicate (2 - l.length) '0' ++ l else l

/-- JS `String(i).padStart(2, "0")`. -/
def pad2 (i : Int) : List Char := padStart2 (intToChars i)

/-- The whitespace characters `parseInt` skips (the common ASCII ones). -/
def isSpaceChar (c : Char) : Bool := c = ' ' || c = '\t' || c = '\n' || c = '\r'

/-- Value of the longest decimal-digit prefix, `none` when there is no digit
(JS NaN). -/
def parseNatVal (l : List Char) : Option Nat :=
  let ds := l.takeWhile Char.isDigit
  if ds.isEmpty then none
  else some (ds.foldl (fun a c => a * 10 + digitVal c) 0)

/-- JS `parseInt(s, 10)`: skip leading whitespace, an optional sign, then
read the decimal-digit prefix; `none` is NaN. -/
def parseIntJS (l : List Char) : Option Int :=
  match l.dropWhile isSpaceChar with
  | [] => none
  | c :: rest =>
    if c = '-' then (parseNatVal rest).map (fun n => -(n : Int))
    else if c = '+' then (parseNatVal rest).map (fun n => (n : Int))
    else (parseNatVal (c :: rest)).map (fun n => (n : Int))

/-- JS `str.split("-")`: the maximal runs between `'-'` separators, with
empty runs kept (`"".split("-") = [""]`, `"a-".split("-") = ["a", ""]`). -/
def splitDash : List Char → List (List Char)
  | [] => [[]]
  | c :: rest =>
    if c = '-' then [] :: splitDash rest
    else
      match splitDash rest with
      | [] => [[c]]
      | p :: ps => (c :: p) :: ps

/-- A JS `Date` holding a local civil day and the time of day: `month` is
1-based (JS `getMonth()` would return `month - 1`), `ms` counts milliseconds
since local midnight. -/
structure JSDate where
  year : Int
  month : Int
  day : Int
  ms : Int
deriving DecidableEq

/-- Gregorian leap-year rule (what JS `Date` uses for its local calendar). -/
def isLeap (y : Int) : Bool :=
  y.emod 4 == 0 && (y.emod 100 != 0 || y.emod 400 == 0)

/-- Days in a month of the proleptic Gregorian calendar. -/
def daysInMonth (y m : Int) : Int :=
  if m = 2 then (if isLeap y then 29 else 28)
  else if m = 4 ∨ m = 6 ∨ m = 9 ∨ m = 11 then 30
  else 31

/-- Days from 1970-01-01 to the civil date `(y, m, d)` (Howard Hinnant's
`days_from_civil`, with floor division). -/
def daysFromCivil (y m d : Int) : Int :=
  let yy := if m ≤ 2 then y - 1 else y
  let era := Int.fdiv yy 400
  let yoe := yy - era * 400
  let mp := if 2 < m then m - 3 else m + 9
  let doy := Int.fdiv (153 * mp + 2) 5 + d - 1
  let doe := yoe * 365 + Int.fdiv yoe 4 - Int.fdiv yoe 100 + doy
  era * 146097 + doe - 719468

/-- The civil date `z` days after 1970-01-01, carrying a time of day
(Howard Hinnant's `civil_from_days`). -/
def civilFromDays (z0 ms : Int) : JSDate :=
  let z := z0 + 719468
  let era := Int.fdiv z 146097
  let doe := z - era * 146097
  let yoe := Int.fdiv (doe - Int.fdiv doe 1460 + Int.fdiv doe 36524 - Int.fdiv doe 146096) 365
  let y := yoe + era * 400
  let doy := doe - (365 * yoe + Int.fdiv yoe 4 - Int.fdiv yoe 100)
  let mp := Int.fdiv (5 * doy + 2) 153
  let d := doy - Int.fdiv (153 * mp + 2) 5 + 1
  let m := if mp < 10 then mp + 3 else mp - 9
  ⟨if m ≤ 2 then y + 1 else y, m, d, ms⟩

/-- Normalisation the JS `Date` field setters perform: a 0-based month rolls
into the year, an out-of-range day of month rolls through the calendar. -/
def normDate (y m0 dt ms : Int) : JSDate :=
  let ym := y + Int.fdiv m0 12
  let mn := m0 - 12 * Int.fdiv m0 12
  if 1 ≤ dt ∧ dt ≤ daysInMonth ym (mn + 1) then ⟨ym, mn + 1, dt, ms⟩
  else civilFromDays (daysFromCivil ym (mn + 1) 1 + (dt - 1)) ms

/-- JS `new Date(y, m0, d)`: midnight local time, after mapping a year in
0..99 to 1900..1999 and rolling out-of-range fields over. -/
def jsMakeDate (y m0 dt : Int) : JSDate :=
  normDate (if 0 ≤ y ∧ y ≤ 99 then y + 1900 else y) m0 dt 0

/-- JS `d.setDate(dt)`: replace the day of month (with rollover), keeping
the time of day; no 1900 year mapping applies here. -/
def jsSetDate (d : JSDate) (dt : Int) : JSDate := normDate d.year (d.month - 1) dt d.ms

/-- JS `d.getTime()`: milliseconds since the (local) epoch. -/
def getTime (d : JSDate) : Int :=
  daysFromCivil d.year d.month d.day * 86400000 + d.ms

/-- Whether the time value falls outside the range a JS `Date` can hold, in
which case the JS time value is NaN. -/
def timeNaN (d : JSDate) : Bool := 8640000000000000 < (getTime d).natAbs

/-- A `JSDate` whose fields actually name a civil day and a time of day. -/
def JSDate.Valid (d : JSDate) : Prop :=
  1 ≤ d.month ∧ d.month ≤ 12 ∧ 1 ≤ d.day ∧ d.day ≤ daysInMonth d.year d.month ∧
    0 ≤ d.ms ∧ d.ms < 86400000

instance (d : JSDate) : Decidable d.Valid :=
  inferInstanceAs (Decidable (1 ≤ d.month ∧ d.month ≤ 12 ∧ 1 ≤ d.day ∧
    d.day ≤ daysInMonth d.year d.month ∧ 0 ≤ d.ms ∧ d.ms < 86400000))

/-- `formatDateLocal` from `App.jsx`, on the character list:
`YYYY-MM-DD` from the date's local components. -/
def formatDateLocalL (d : JSDate) : List Char :=
  intToChars d.year ++ ('-' :: pad2 d.month) ++ ('-' :: pad2 d.day)

/-- `formatDateLocal` from `App.jsx` (lines 42-47). -/
def formatDateLocal (d : JSDate) : String := ⟨formatDateLocalL d⟩

/-- `parseLocalDate` from `App.jsx`, on the character list: split on `'-'`,
`parseInt` the first three parts, return `none` (JS `null`) when any of the
three is missing, unparseable (NaN) or zero — all falsy in JS — and
otherwise build `new Date(y, m - 1, d)`. -/
def parseLocalDateL (l : List Char) : Option JSDate :=
  let parts := splitDash l
  match (parts.get? 0).bind parseIntJS, (parts.get? 1).bind parseIntJS,
      (parts.get? 2).bind parseIntJS with
  | some y, some m, some d =>
    if y = 0 ∨ m = 0 ∨ d = 0 then none else some (jsMakeDate y (m - 1) d)
  | _, _, _ => none

/-- `parseLocalDate` from `App.jsx` (lines 49-53). -/
def parseLocalDate (s : String) : Option JSDate := parseLocalDateL s.data

/-- The `j`-th dash-separated component of `s` run through `parseInt`, as
`parseLocalDate` computes it before the truthiness check. -/
def dateComponent (s : String) (j : Nat) : Option Int :=
  ((splitDash s.data).get? j).bind parseIntJS

/-- A synthetic event ("stevne") as `generateStevnerForRange` builds it. -/
structure Stevne where
  id : String
  name : String
  rsvpOpen : Bool
  attendees : Nat
  maxAttendees : Nat
  date : String
deriving DecidableEq

/-- A range record, with the fields the core logic reads. -/
structure Range where
  skytterlag_id : String
  skytterlag_navn : String
  stevner : List Stevne
deriving DecidableEq

/-- JS `s.charCodeAt(0)`: `none` is NaN (the string is empty). -/
def charCodeAt0 (s : String) : Option Nat := s.data.head?.map Char.toNat

/-- The fixed label list of `generateStevnerForRange`. -/
def baseNames : List String :=
  ["Banestevne", "Kretsstevne", "Treningskveld", "Klubbmesterskap"]

/-- The loop body of `generateStevnerForRange` (lines 66-85): the event at
local index `i` for the range with id `rid` at list position `index`, built
relative to the local date `today`. -/
def stevneAt (today : JSDate) (rid : String) (index i : Nat) : Stevne :=
  let maxAttendees := 40 + ((index + i) % 4) * 20
  let rsvpOpen : Bool := (index + i) % 3 != 0
  let attendees :=
    if rsvpOpen then 10 + ((index * 7 + i * 13) % (maxAttendees - 10))
    else 1 + ((index * 5 + i * 11) % maxAttendees)
  let dayOffset : Nat := 3 + ((index * 5 + i * 17) % 120)
  let d := jsSetDate today ((today.day : Int) + (dayOffset : Int))
  { id := rid ++ "-" ++ natToStr i,
    name := baseNames.getD ((index + i) % baseNames.length) "",
    rsvpOpen := rsvpOpen,
    attendees := min attendees maxAttendees,
    maxAttendees := maxAttendees,
    date := formatDateLocal d }

/-- `generateStevnerForRange` from `App.jsx` (lines 55-87). `today` is the
wall-clock local date the source reads with `new Date()`, passed explicitly.
When `range.skytterlag_id` is empty, `charCodeAt(0)` is NaN, so `count` is
NaN and the loop `for (let i = 0; i < count; i++)` runs zero times. -/
def generateStevnerForRange (today : JSDate) (range : Range) (index : Nat) : List Stevne :=
  if index % 2 != 0 then []
  else
    match charCodeAt0 range.skytterlag_id with
    | none => []
    | some c =>
      let count := 1 + ((c + index) % 2)
      (List.range count).map (fun i => stevneAt today range.skytterlag_id index i)

/-- JS `e.setHours(23, 59, 59, 999)`: move the time of day to the last
millisecond of the civil day. -/
def setEndOfDay (d : JSDate) : JSDate := { d with ms := 86399999 }

/-- The start-bound test of `isEventWithinRange` (lines 137-140): whether
`d < parseLocalDate(startDate)` holds in JS. When the bound fails to parse,
`d < null` compares against `+0`; when the parsed bound's time value is NaN,
the comparison is false. -/
def startExcludes (startDate : String) (d : JSDate) : Bool :=
  match parseLocalDate startDate with
  | none => decide (getTime d < 0)
  | some s => !timeNaN s && decide (getTime d < getTime s)

/-- The end-bound test of `isEventWithinRange` (lines 143-144) for a parsed
end bound `e`: whether `d > e` holds in JS after `e.setHours(23,59,59,999)`. -/
def endExcludes (e d : JSDate) : Bool :=
  !timeNaN (setEndOfDay e) && decide (getTime (setEndOfDay e) < getTime d)

/-- `isEventWithinRange` from `App.jsx` (lines 131-149). `.error ()` is a
thrown `TypeError`: calling `.getTime()` or `.setHours(...)` on the `null`
that `parseLocalDate` returns for a malformed non-empty string. -/
def isEventWithinRange (startDate endDate dateStr : String) : Except Unit Bool :=
  if startDate = "" ∧ endDate = "" then .ok true
  else if dateStr = "" then .ok false
  else
    match parseLocalDate dateStr with
    | none => .error ()
    | some d =>
      if timeNaN d then .ok false
      else if startDate ≠ "" ∧ startExcludes startDate d then .ok false
      else if endDate = "" then .ok true
      else
        match parseLocalDate endDate with
        | none => .error ()
        | some e => if endExcludes e d then .ok false else .ok true

/-- JS `r.stevner.some(ev => isEventWithinRange(ev.date))`: left to right,
short-circuiting on the first `true`, propagating a thrown `TypeError`. -/
def someWithin (startDate endDate : String) : List Stevne → Except Unit Bool
  | [] => .ok false
  | ev :: rest =>
    match isEventWithinRange startDate endDate ev.date with
    | .error u => .error u
    | .ok true => .ok true
    | .ok false => someWithin startDate endDate rest

/-- JS `ranges.filter(r => Array.isArray(r.stevner) && r.stevner.some(...))`;
in the model `stevner` is always a list, so `Array.isArray` is true. -/
def filterVisible (startDate endDate : String) : List Range → Except Unit (List Range)
  | [] => .ok []
  | r :: rest =>
    match someWithin startDate endDate r.stevner with
    | .error u => .error u
    | .ok b => (filterVisible startDate endDate rest).map (fun v => if b then r :: v else v)

/-- `visibleRanges` from `App.jsx` (lines 151-158). -/
def visibleRanges (ranges : List Range) (startDate endDate : String) :
    Except Unit (List Range) :=
  if startDate = "" ∧ endDate = "" then .ok ranges
  else filterVisible startDate endDate ranges

/-! ### Decimal digits and `parseInt` -/

theorem digitChar_isDigit {n : Nat} (h : n < 10) : (digitChar n).isDigit = true := by
  interval_cases n <;> decide

theorem digitVal_digitChar {n : Nat} (h : n < 10) : digitVal (digitChar n) = n := by
  interval_cases n <;> decide

theorem natDigitsCore_all_digit :
    ∀ f n : Nat, n < f → ∀ c ∈ natDigitsCore f n, c.isDigit = true := by
  intro f
  induction f with
  | zero => intro n h; omega
  | succ f ih =>
    intro n h c hc
    rw [natDigitsCore] at hc
    split at hc
    · rename_i h10
      simp only [List.mem_singleton] at hc
      subst hc
      exact digitChar_isDigit h10
    · rename_i h10
      rcases List.mem_append.mp hc with hc | hc
      · exact ih (n / 10) (by omega) c hc
      · simp only [List.mem_singleton] at hc
        subst hc
        exact digitChar_isDigit (Nat.mod_lt _ (by omega))

theorem natDigitsCore_ne_nil : ∀ f n : Nat, n < f → natDigitsCore f n ≠ [] := by
  intro f n h
  cases f with
  | zero => omega
  | succ f =>
    rw [natDigitsCore]
    split
    · simp
    · simp

theorem natDigitsCore_foldl :
    ∀ f n a : Nat, n < f →
      (natDigitsCore f n).foldl (fun a c => a * 10 + digitVal c) a =
        a * 10 ^ (natDigitsCore f n).length + n := by
  intro f
  induction f with
  | zero => intro n a h; omega
  | succ f ih =>
    intro n a h
    rw [natDigitsCore]
    split
    · rename_i h10
      simp [List.foldl, digitVal_digitChar h10]
    · rename_i h10
      rw [List.foldl_append, ih (n / 10) a (by omega)]
      simp only [List.foldl, List.length_append, List.length_singleton]
      rw [digitVal_digitChar (Nat.mod_lt _ (by omega))]
      have key : ∀ b : Nat, (b + n / 10) * 10 + n % 10 = b * 10 + n := by
        intro b; omega
      rw [key (a * 10 ^ (natDigitsCore f (n / 10)).length), pow_succ, ← mul_assoc]

theorem natDigits_all_digit {n : Nat} : ∀ c ∈ natDigits n, c.isDigit = true :=
  natDigitsCore_all_digit (n + 1) n (Nat.lt_succ_self n)

theorem natDigits_ne_nil {n : Nat} : natDigits n ≠ [] :=
  natDigitsCore_ne_nil (n + 1) n (Nat.lt_succ_self n)

theorem natDigits_foldl (n : Nat) :
    (natDigits n).foldl (fun a c => a * 10 + digitVal c) 0 = n := by
  have h := natDigitsCore_foldl (n + 1) n 0 (Nat.lt_succ_self n)
  simpa [natDigits] using h

theorem isDigit_not_space {c : Char} (h : c.isDigit = true) : isSpaceChar c = false := by
  by_contra hs
  simp only [Bool.not_eq_false, isSpaceChar, Bool.or_eq_true, decide_eq_true_eq] at hs
  rcases hs with ((rfl | rfl) | rfl) | rfl <;> exact absurd h (by decide)

theorem isDigit_ne_dash {c : Char} (h : c.isDigit = true) : c ≠ '-' := by
  rintro rfl; exact absurd h (by decide)

theorem isDigit_ne_plus {c : Char} (h : c.isDigit = true) : c ≠ '+' := by
  rintro rfl; exact absurd h (by decide)

theorem parseNatVal_digits {l : List Char} (hd : ∀ c ∈ l, c.isDigit = true)
    (hne : l ≠ []) :
    parseNatVal l = some (l.foldl (fun a c => a * 10 + digitVal c) 0) := by
  have htake : l.takeWhile Char.isDigit = l := List.takeWhile_eq_self_iff.mpr hd
  rw [parseNatVal]
  simp only [htake]
  rw [if_neg (by simpa [List.isEmpty_iff] using hne)]

theorem parseIntJS_digits {l : List Char} (hd : ∀ c ∈ l, c.isDigit = true)
    (hne : l ≠ []) :
    parseIntJS l = some ((l.foldl (fun a c => a * 10 + digitVal c) 0 : Nat) : Int) := by
  cases l with
  | nil => exact absurd rfl hne
  | cons c cs =>
    have hc : c.isDigit = true := hd c (List.mem_cons_self c cs)
    have hdrop : (c :: cs).dropWhile isSpaceChar = c :: cs :=
      List.dropWhile_cons_of_neg (by simp [isDigit_not_space hc])
    rw [parseIntJS, hdrop]
    simp only [if_neg (isDigit_ne_dash hc), if_neg (isDigit_ne_plus hc)]
    rw [parseNatVal_digits hd hne]
    rfl

theorem parseIntJS_natDigits (n : Nat) : parseIntJS (natDigits n) = some (n : Int) := by
  rw [parseIntJS_digits natDigits_all_digit natDigits_ne_nil, natDigits_foldl]

/-! ### Splitting on dashes -/

theorem splitDash_no_dash {l : List Char} (h : ∀ c ∈ l, c ≠ '-') : splitDash l = [l] := by
  induction l with
  | nil => rfl
  | cons c rest ih =>
    rw [splitDash, if_neg (h c (List.mem_cons_self c rest)),
      ih (fun x hx => h x (List.mem_cons_of_mem c hx))]

theorem splitDash_append {a : List Char} (h : ∀ c ∈ a, c ≠ '-') (rest : List Char) :
    splitDash (a ++ '-' :: rest) = a :: splitDash rest := by
  induction a with
  | nil =>
    simp only [List.nil_append]
    rw [splitDash, if_pos rfl]
  | cons x xs ih =>
    simp only [List.cons_append]
    rw [splitDash, if_neg (h x (List.mem_cons_self x xs)),
      ih (fun c hc => h c (List.mem_cons_of_mem x hc))]

/-! ### Small arithmetic facts about the date model -/

theorem fdiv_twelve_zero {a : Int} (h0 : 0 ≤ a) (h12 : a < 12) : Int.fdiv a 12 = 0 := by
  rw [Int.fdiv_eq_ediv _ (by norm_num)]
  omega

theorem daysInMonth_le (y m : Int) : daysInMonth y m ≤ 31 := by
  rw [daysInMonth]
  split
  · split <;> norm_num
  · split <;> norm_num

theorem intToChars_nonneg {i : Int} (h : 0 ≤ i) : intToChars i = natDigits i.toNat := by
  rw [intToChars, if_neg (by omega)]

theorem pad2_all_digit {i : Int} (h : 0 ≤ i) : ∀ c ∈ pad2 i, c.isDigit = true := by
  intro c hc
  rw [pad2, intToChars_nonneg h, padStart2] at hc
  split at hc
  · rcases List.mem_append.mp hc with hc | hc
    · rw [List.eq_of_mem_replicate hc]; decide
    · exact natDigits_all_digit c hc
  · exact natDigits_all_digit c hc

theorem natDigits_no_dash {n : Nat} : ∀ c ∈ natDigits n, c ≠ '-' :=
  fun c hc => isDigit_ne_dash (natDigits_all_digit c hc)

theorem pad2_no_dash {i : Int} (h : 0 ≤ i) : ∀ c ∈ pad2 i, c ≠ '-' :=
  fun c hc => isDigit_ne_dash (pad2_all_digit h c hc)

theorem pad2_parse {i : Int} (h1 : 1 ≤ i) (h31 : i ≤ 31) : parseIntJS (pad2 i) = some i := by
  interval_cases i <;> decide

/-! ### The codec round trip -/

theorem formatDateLocalL_shape (y m dd msv : Int) (hy : 0 ≤ y) :
    formatDateLocalL ⟨y, m, dd, msv⟩ =
      natDigits y.toNat ++ '-' :: (pad2 m ++ '-' :: pad2 dd) := by
  rw [formatDateLocalL]
  show intToChars y ++ ('-' :: pad2 m) ++ ('-' :: pad2 dd) = _
  rw [intToChars_nonneg hy, List.append_assoc, List.cons_append]

theorem jsMakeDate_in_range {y m dd : Int} (hm1 : 1 ≤ m) (hm2 : m ≤ 12)
    (hd1 : 1 ≤ dd) (hd2 : dd ≤ daysInMonth y m) (hy : 100 ≤ y) :
    jsMakeDate y (m - 1) dd = ⟨y, m, dd, 0⟩ := by
  rw [jsMakeDate, if_neg (by omega : ¬(0 ≤ y ∧ y ≤ 99)), normDate]
  rw [fdiv_twelve_zero (by omega) (by omega)]
  simp only [mul_zero, sub_zero, add_zero, sub_add_cancel]
  rw [if_pos ⟨hd1, hd2⟩]

theorem parseLocalDateL_roundtrip {y m dd msv : Int} (hm1 : 1 ≤ m) (hm2 : m ≤ 12)
    (hd1 : 1 ≤ dd) (hd2 : dd ≤ daysInMonth y m) (hy : 100 ≤ y) :
    parseLocalDateL (formatDateLocalL ⟨y, m, dd, msv⟩) = some ⟨y, m, dd, 0⟩ := by
  have hy0 : (0 : Int) ≤ y := by omega
  have hsplit : splitDash (formatDateLocalL ⟨y, m, dd, msv⟩) =
      [natDigits y.toNat, pad2 m, pad2 dd] := by
    rw [formatDateLocalL_shape y m dd msv hy0,
      splitDash_append natDigits_no_dash,
      splitDash_append (pad2_no_dash (by omega)),
      splitDash_no_dash (pad2_no_dash (by omega))]
  rw [parseLocalDateL]
  simp only [hsplit, List.get?, Option.some_bind, parseIntJS_natDigits,
    pad2_parse hm1 (by omega), pad2_parse hd1 (le_trans hd2 (daysInMonth_le y m)),
    Int.toNat_of_nonneg hy0]
  rw [if_neg (by omega : ¬(y = 0 ∨ m = 0 ∨ dd = 0)),
    jsMakeDate_in_range hm1 hm2 hd1 hd2 hy]

/-! ### The claims -/

/-- C2, counterexample: the local calendar day 0050-03-04 (a valid date whose
year is 50) does not survive the round trip: `formatDateLocal` prints the
year as `"50"`, and `new Date(50, 2, 4)` maps year 50 to 1950. -/
theorem c2_counterexample :
    JSDate.Valid ⟨50, 3, 4, 0⟩ ∧
      (parseLocalDate (formatDateLocal ⟨50, 3, 4, 0⟩)).map JSDate.year ≠ some 50 := by
  constructor
  · decide
  · decide

/-- C2 (amended): for every valid local calendar date whose year is at least
100, `parseLocalDate (formatDateLocal d)` returns the same (year, month, day),
whatever time-of-day component `d` carried. Years 0..99 are remapped to
1900..1999 by the JS `Date` constructor and negative years do not parse, so
the round trip holds exactly from year 100 up. -/
theorem c2_roundtrip_year_ge_100 (d : JSDate) (hv : d.Valid) (hy : 100 ≤ d.year) :
    parseLocalDate (formatDateLocal d) = some ⟨d.year, d.month, d.day, 0⟩ := by
  obtain ⟨y, m, dd, msv⟩ := d
  obtain ⟨hm1, hm2, hd1, hd2, -, -⟩ := hv
  exact parseLocalDateL_roundtrip hm1 hm2 hd1 hd2 hy

/-- C2, witness: the round trip at the valid date 2025-06-15 (with a
time-of-day component), via `c2_roundtrip_year_ge_100`. -/
theorem c2_roundtrip_witness :
    JSDate.Valid ⟨2025, 6, 15, 12345⟩ ∧ (100 : Int) ≤ 2025 ∧
      parseLocalDate (formatDateLocal ⟨2025, 6, 15, 12345⟩) = some ⟨2025, 6, 15, 0⟩ :=
  ⟨by decide, by decide,
    c2_roundtrip_year_ge_100 ⟨2025, 6, 15, 12345⟩ (by decide) (by decide)⟩

/-- C4: for every range record and every odd index, the generator returns
the empty sequence (`if (index % 2 !== 0) return []`). -/
theorem c4_odd_index_empty (today : JSDate) (r : Range) (index : Nat)
    (h : index % 2 = 1) : generateStevnerForRange today r index = [] := by
  rw [generateStevnerForRange, if_pos (by simp [h])]

/-- C4, witness: odd index 1 yields no events. -/
theorem c4_odd_witness :
    generateStevnerForRange ⟨2025, 6, 15, 0⟩ ⟨"ABC", "Alpha", []⟩ 1 = [] :=
  c4_odd_index_empty _ _ 1 rfl

/-- C3 (amended): for every even index, if `range.skytterlag_id` is the empty
string the generator does not throw and returns the empty sequence:
`"".charCodeAt(0)` is NaN, so `count` is NaN and the loop `i < count` runs
zero times — not the `1 + (index % 2)` events a first-character code of 0
would give. -/
theorem c3_empty_id_empty (today : JSDate) (r : Range) (index : Nat)
    (heven : index % 2 = 0) (hid : r.skytterlag_id = "") :
    generateStevnerForRange today r index = [] := by
  rw [generateStevnerForRange, if_neg (by simp [heven]), hid]
  rfl

/-- C3, counterexample: at even index 0 with an empty id the generator
returns 0 events, not the `1 + (0 % 2) = 1` events the claim asks for. -/
theorem c3_counterexample :
    (generateStevnerForRange ⟨2025, 1, 1, 0⟩ ⟨"", "Tom", []⟩ 0).length ≠ 1 + (0 % 2) := by
  decide

/-- C3, witness: the empty-id case at even index 0, via `c3_empty_id_empty`. -/
theorem c3_empty_witness :
    generateStevnerForRange ⟨2025, 1, 1, 0⟩ ⟨"", "Tom", []⟩ 0 = [] :=
  c3_empty_id_empty _ _ 0 rfl rfl

/-- C5: a range with id "ABC" at index 0 gets `1 + ((65 + 0) % 2) = 2`
events, at local indices 0 and 1, named from label-list positions `0 % 4`
and `1 % 4`, with ids "ABC-0" and "ABC-1" — whatever the current date is. -/
theorem c5_abc_index0 (today : JSDate) (r : Range) (h : r.skytterlag_id = "ABC") :
    (generateStevnerForRange today r 0).length = 1 + ((65 + 0) % 2) ∧
      (generateStevnerForRange today r 0).map Stevne.id = ["ABC-0", "ABC-1"] ∧
      (generateStevnerForRange today r 0).map Stevne.name =
        [baseNames.getD (0 % 4) "", baseNames.getD (1 % 4) ""] := by
  have e : generateStevnerForRange today r 0 =
      (List.range 2).map (fun i => stevneAt today "ABC" 0 i) := by
    rw [generateStevnerForRange, if_neg (by decide), h]
    rfl
  rw [e]
  exact ⟨rfl, rfl, rfl⟩

/-- C5, witness: the scenario at a concrete current date and range record. -/
theorem c5_abc_witness :
    (generateStevnerForRange ⟨2025, 6, 15, 0⟩ ⟨"ABC", "Alpha", []⟩ 0).length =
        1 + ((65 + 0) % 2) ∧
      (generateStevnerForRange ⟨2025, 6, 15, 0⟩ ⟨"ABC", "Alpha", []⟩ 0).map Stevne.id =
        ["ABC-0", "ABC-1"] ∧
      (generateStevnerForRange ⟨2025, 6, 15, 0⟩ ⟨"ABC", "Alpha", []⟩ 0).map Stevne.name =
        [baseNames.getD (0 % 4) "", baseNames.getD (1 % 4) ""] :=
  c5_abc_index0 ⟨2025, 6, 15, 0⟩ ⟨"ABC", "Alpha", []⟩ rfl

/-- C6: every generated event satisfies
`0 ≤ attendees ≤ maxAttendees`, with `maxAttendees` one of 40, 60, 80, 100:
the clamp `Math.min(attendees, maxAttendees)` keeps the bound in both the
open-RSVP and the closed attendee formulas. -/
theorem c6_attendee_invariant (today : JSDate) (r : Range) (index : Nat) (e : Stevne)
    (he : e ∈ generateStevnerForRange today r index) :
    0 ≤ e.attendees ∧ e.attendees ≤ e.maxAttendees ∧
      (e.maxAttendees = 40 ∨ e.maxAttendees = 60 ∨ e.maxAttendees = 80 ∨
        e.maxAttendees = 100) := by
  rw [generateStevnerForRange] at he
  split at he
  · simp at he
  · rcases hcc : charCodeAt0 r.skytterlag_id with _ | c
    · rw [hcc] at he; simp at he
    · rw [hcc] at he
      simp only [List.mem_map, List.mem_range] at he
      obtain ⟨i, -, rfl⟩ := he
      refine ⟨Nat.zero_le _, ?_, ?_⟩
      · exact Nat.min_le_right _ _
      · show 40 + ((index + i) % 4) * 20 = 40 ∨ 40 + ((index + i) % 4) * 20 = 60 ∨
          40 + ((index + i) % 4) * 20 = 80 ∨ 40 + ((index + i) % 4) * 20 = 100
        have h4 : (index + i) % 4 < 4 := Nat.mod_lt _ (by norm_num)
        omega

/-- C6, witness: the invariant at the first event of the "ABC" range. -/
theorem c6_attendee_witness :
    0 ≤ (⟨"ABC-0", "Banestevne", false, 1, 40, "2025-06-18"⟩ : Stevne).attendees ∧
      (⟨"ABC-0", "Banestevne", false, 1, 40, "2025-06-18"⟩ : Stevne).attendees ≤
        (⟨"ABC-0", "Banestevne", false, 1, 40, "2025-06-18"⟩ : Stevne).maxAttendees ∧
      ((⟨"ABC-0", "Banestevne", false, 1, 40, "2025-06-18"⟩ : Stevne).maxAttendees = 40 ∨
        (⟨"ABC-0", "Banestevne", false, 1, 40, "2025-06-18"⟩ : Stevne).maxAttendees = 60 ∨
        (⟨"ABC-0", "Banestevne", false, 1, 40, "2025-06-18"⟩ : Stevne).maxAttendees = 80 ∨
        (⟨"ABC-0", "Banestevne", false, 1, 40, "2025-06-18"⟩ : Stevne).maxAttendees = 100) :=
  c6_attendee_invariant ⟨2025, 6, 15, 0⟩ ⟨"ABC", "Alpha", []⟩ 0
    ⟨"ABC-0", "Banestevne", false, 1, 40, "2025-06-18"⟩ (by decide)

/-- C9: the generator is a pure function of the wall-clock date (passed
explicitly as `today`), the range's stable identifier and the index: two
records with the same `skytterlag_id` produce identical output at the same
instant — no other field is read, and no external randomness exists. -/
theorem c9_determinism (today : JSDate) (r r2 : Range) (index : Nat)
    (h : r.skytterlag_id = r2.skytterlag_id) :
    generateStevnerForRange today r index = generateStevnerForRange today r2 index := by
  obtain ⟨id1, n1, s1⟩ := r
  obtain ⟨id2, n2, s2⟩ := r2
  obtain rfl : id1 = id2 := h
  rfl

/-- C9, witness: two records sharing the id "ABC" but nothing else. -/
theorem c9_determinism_witness :
    generateStevnerForRange ⟨2025, 6, 15, 0⟩ ⟨"ABC", "Alpha", []⟩ 0 =
      generateStevnerForRange ⟨2025, 6, 15, 0⟩
        ⟨"ABC", "Beta", [⟨"x", "y", true, 0, 40, "z"⟩]⟩ 0 :=
  c9_determinism _ _ _ 0 rfl

/-- C1 (the code throws instead): with the active bounds 2025-01-01 and
2025-12-31 and the undecodable event date "not-a-date", `parseLocalDate`
returns `null` and the filter then calls `d.getTime()` on it, raising a
`TypeError` — the `Number.isNaN` guard on the next line never runs, so the
filter does not return `false`. -/
theorem c1_invalid_date_throws :
    isEventWithinRange "2025-01-01" "2025-12-31" "not-a-date" = .error () := rfl

/-- C7: with `start = end = "2025-06-15"`, the day itself passes the filter
(start is inclusive from start-of-day, end through end-of-day set by
`setHours(23,59,59,999)`), while the days before and after do not. -/
theorem c7_inclusive_boundaries :
    isEventWithinRange "2025-06-15" "2025-06-15" "2025-06-15" = .ok true ∧
      isEventWithinRange "2025-06-15" "2025-06-15" "2025-06-14" = .ok false ∧
      isEventWithinRange "2025-06-15" "2025-06-15" "2025-06-16" = .ok false :=
  ⟨rfl, rfl, rfl⟩

/-- C10: `parseLocalDate` returns a date exactly when each of the first
three dash-separated components has a nonzero `parseInt` value; components
out of calendar range roll over ("2025-13-05" decodes to 2026-01-05), and
such a string can satisfy an active filter. -/
theorem c10_decode_semantics :
    (∀ s : String, (parseLocalDate s).isSome = true ↔
        ((∃ a, dateComponent s 0 = some a ∧ a ≠ 0) ∧
          (∃ b, dateComponent s 1 = some b ∧ b ≠ 0) ∧
          (∃ c, dateComponent s 2 = some c ∧ c ≠ 0))) ∧
      parseLocalDate "2025-13-05" = some ⟨2026, 1, 5, 0⟩ ∧
      isEventWithinRange "2026-01-01" "2026-12-31" "2025-13-05" = .ok true := by
  refine ⟨?_, rfl, rfl⟩
  intro s
  have e0 : ((splitDash s.data).get? 0).bind parseIntJS = dateComponent s 0 := rfl
  have e1 : ((splitDash s.data).get? 1).bind parseIntJS = dateComponent s 1 := rfl
  have e2 : ((splitDash s.data).get? 2).bind parseIntJS = dateComponent s 2 := rfl
  rw [parseLocalDate, parseLocalDateL]
  rw [e0, e1, e2]
  rcases h0 : dateComponent s 0 with _ | a
  · simp
  rcases h1 : dateComponent s 1 with _ | b
  · simp
  rcases h2 : dateComponent s 2 with _ | c
  · simp
  show (if a = 0 ∨ b = 0 ∨ c = 0 then (none : Option JSDate)
      else some (jsMakeDate a (b - 1) c)).isSome = true ↔ _
  by_cases hz : a = 0 ∨ b = 0 ∨ c = 0
  · rw [if_pos hz]
    simp only [Option.isSome_none, Bool.false_eq_true, false_iff]
    rintro ⟨⟨a', ha', ha0⟩, ⟨b', hb', hb0⟩, ⟨c', hc', hc0⟩⟩
    obtain rfl := Option.some_injective _ ha'
    obtain rfl := Option.some_injective _ hb'
    obtain rfl := Option.some_injective _ hc'
    tauto
  · rw [if_neg hz]
    push_neg at hz
    simp only [Option.isSome_some, true_iff]
    exact ⟨⟨a, rfl, hz.1⟩, ⟨b, rfl, hz.2.1⟩, ⟨c, rfl, hz.2.2⟩⟩

/-! ### Range-level visibility -/

theorem someWithin_ok_true {s e : String} :
    ∀ {l : List Stevne}, someWithin s e l = .ok true →
      ∃ ev ∈ l, isEventWithinRange s e ev.date = .ok true := by
  intro l
  induction l with
  | nil => intro h; simp [someWithin] at h
  | cons ev rest ih =>
    intro h
    rw [someWithin] at h
    rcases hev : isEventWithinRange s e ev.date with u | b
    · rw [hev] at h; simp at h
    · rw [hev] at h
      cases b
      · obtain ⟨ev2, hmem, hok⟩ := ih h
        exact ⟨ev2, List.mem_cons_of_mem _ hmem, hok⟩
      · exact ⟨ev, List.mem_cons_self _ _, hev⟩

theorem someWithin_ok_false {s e : String} :
    ∀ {l : List Stevne}, someWithin s e l = .ok false →
      ∀ ev ∈ l, isEventWithinRange s e ev.date = .ok false := by
  intro l
  induction l with
  | nil => intro _ ev hev; simp at hev
  | cons ev rest ih =>
    intro h ev2 hev2
    rw [someWithin] at h
    rcases heq : isEventWithinRange s e ev.date with u | b
    · rw [heq] at h; simp at h
    · rw [heq] at h
      cases b
      · rcases List.mem_cons.mp hev2 with rfl | hmem
        · exact heq
        · exact ih h ev2 hmem
      · simp at h

theorem filterVisible_mem {s e : String} :
    ∀ {l v : List Range}, filterVisible s e l = .ok v →
      ∀ r, r ∈ v ↔ r ∈ l ∧ someWithin s e r.stevner = .ok true := by
  intro l
  induction l with
  | nil =>
    intro v hv r
    rw [filterVisible] at hv
    obtain rfl : ([] : List Range) = v := by simpa using hv
    simp
  | cons a rest ih =>
    intro v hv r
    rw [filterVisible] at hv
    rcases hsw : someWithin s e a.stevner with u | b
    · rw [hsw] at hv; simp at hv
    · rw [hsw] at hv
      rcases hrest : filterVisible s e rest with u | v2
      · rw [hrest] at hv; simp [Except.map] at hv
      · rw [hrest] at hv
        have hv2 : (if b = true then a :: v2 else v2) = v := by
          simpa [Except.map] using hv
        subst hv2
        cases b
        · rw [if_neg (by simp)]
          constructor
          · intro hr
            obtain ⟨hmem, hok⟩ := (ih hrest r).mp hr
            exact ⟨List.mem_cons_of_mem _ hmem, hok⟩
          · rintro ⟨hmem, hok⟩
            rcases List.mem_cons.mp hmem with rfl | hmem2
            · rw [hok] at hsw; simp at hsw
            · exact (ih hrest r).mpr ⟨hmem2, hok⟩
        · rw [if_pos rfl]
          constructor
          · intro hr
            rcases List.mem_cons.mp hr with rfl | hmem2
            · exact ⟨List.mem_cons_self _ _, hsw⟩
            · obtain ⟨hmem, hok⟩ := (ih hrest r).mp hmem2
              exact ⟨List.mem_cons_of_mem _ hmem, hok⟩
          · rintro ⟨hmem, hok⟩
            rcases List.mem_cons.mp hmem with rfl | hmem2
            · exact List.mem_cons_self _ _
            · exact List.mem_cons_of_mem _ ((ih hrest r).mpr ⟨hmem2, hok⟩)

theorem filterVisible_some {s e : String} :
    ∀ {l v : List Range}, filterVisible s e l = .ok v →
      ∀ r ∈ l, ∃ b, someWithin s e r.stevner = .ok b := by
  intro l
  induction l with
  | nil => intro v _ r hr; simp at hr
  | cons a rest ih =>
    intro v hv r hr
    rw [filterVisible] at hv
    rcases hsw : someWithin s e a.stevner with u | b
    · rw [hsw] at hv; simp at hv
    · rw [hsw] at hv
      rcases hrest : filterVisible s e rest with u | v2
      · rw [hrest] at hv; simp [Except.map] at hv
      · rcases List.mem_cons.mp hr with rfl | hmem
        · exact ⟨b, hsw⟩
        · exact ih hrest r hmem

/-- C8: with no filter active every range is visible unchanged; with an
active filter, whenever `visibleRanges` completes without throwing, a range
is in the result exactly when it is one of the inputs and at least one of
its events satisfies the filter — so a range with zero events is never
visible under an active filter. -/
theorem c8_visibility (ranges : List Range) (s e : String) :
    (s = "" ∧ e = "" → visibleRanges ranges s e = .ok ranges) ∧
      (¬(s = "" ∧ e = "") → ∀ vs, visibleRanges ranges s e = .ok vs →
        ∀ r, r ∈ vs ↔ r ∈ ranges ∧
          ∃ ev ∈ r.stevner, isEventWithinRange s e ev.date = .ok true) := by
  constructor
  · intro h
    rw [visibleRanges, if_pos h]
  · intro hact vs hvs r
    rw [visibleRanges, if_neg hact] at hvs
    constructor
    · intro hr
      obtain ⟨hmem, hok⟩ := (filterVisible_mem hvs r).mp hr
      exact ⟨hmem, someWithin_ok_true hok⟩
    · rintro ⟨hmem, ev, hev, hok⟩
      obtain ⟨b, hb⟩ := filterVisible_some hvs r hmem
      cases b
      · exact absurd hok (by rw [someWithin_ok_false hb ev hev]; simp)
      · exact (filterVisible_mem hvs r).mpr ⟨hmem, hb⟩

/-- C8, witness: two concrete ranges under the active filter June 2025 —
the one whose event falls inside the month is visible, the one with no
events is not. -/
theorem c8_visibility_witness :
    ((⟨"A", "Alpha", [⟨"A-0", "Banestevne", true, 1, 40, "2025-06-15"⟩]⟩ : Range) ∈
        [(⟨"A", "Alpha", [⟨"A-0", "Banestevne", true, 1, 40, "2025-06-15"⟩]⟩ : Range)]) ∧
      (⟨"B", "Beta", []⟩ : Range) ∉
        [(⟨"A", "Alpha", [⟨"A-0", "Banestevne", true, 1, 40, "2025-06-15"⟩]⟩ : Range)] := by
  have h := (c8_visibility
    [⟨"A", "Alpha", [⟨"A-0", "Banestevne", true, 1, 40, "2025-06-15"⟩]⟩, ⟨"B", "Beta", []⟩]
    "2025-06-01" "2025-06-30").2 (by simp)
    [⟨"A", "Alpha", [⟨"A-0", "Banestevne", true, 1, 40, "2025-06-15"⟩]⟩] rfl
  constructor
  · exact (h _).mpr ⟨by simp, ⟨"A-0", "Banestevne", true, 1, 40, "2025-06-15"⟩,
      by simp, rfl⟩
  · intro hmem
    obtain ⟨-, ev, hev, -⟩ := (h _).mp hmem
    simp at hev

/-- C10, witness: the characterisation instantiated at "2025-13-05", whose
month component 13 rolls over. -/
theorem c10_decode_witness :
    (parseLocalDate "2025-13-05").isSome = true ↔
      ((∃ a, dateComponent "2025-13-05" 0 = some a ∧ a ≠ 0) ∧
        (∃ b, dateComponent "2025-13-05" 1 = some b ∧ b ≠ 0) ∧
        (∃ c, dateComponent "2025-13-05" 2 = some c ∧ c ≠ 0)) :=
  c10_decode_semantics.1 "2025-13-05"
